import Mathlib

/-!
# Verification of the meta-transaction forwarder core

Shallow embedding of the TypeScript sources of the `metatransactions`
repository: the abstract `Forwarder` class (classification of direct vs
deploy calls, deploy lowering, canonical signing hash, final encoding)
and the two replay-protection authorities (multi-nonce queues and
bit-flip bitmaps), together with proofs of the spec's claims about them.

Byte strings are modelled as `List Nat`; addresses and uints as `Nat`.
External library primitives (the ABI coder, `keccak256`) are modelled as
concrete injective functions on these byte strings, since the claims are
about which composition of those primitives the code computes, not about
their cryptographic content.
-/

/-- Byte strings (hex strings in the TypeScript source). -/
abbrev Bytes := List Nat

/-- A value handed to `defaultAbiCoder.encode`: the source only uses the
`bytes`, `address` and `uint` types. -/
inductive AbiValue where
  | bytes : Bytes → AbiValue
  | addr : Nat → AbiValue
  | uint : Nat → AbiValue
deriving DecidableEq, Repr

/-- Modelled from the spec: the ABI encoding of one typed value.  Each
value is rendered with a type tag and, for dynamic `bytes`, a length
prefix, which makes the encoding injective as the real ABI encoding is. -/
def abiEncodeValue : AbiValue → Bytes
  | .bytes b => 0 :: b.length :: b
  | .addr a => [1, a]
  | .uint n => [2, n]

/-- Modelled from the spec: `defaultAbiCoder.encode` on a list of typed
values — the tuple arity followed by each value's encoding. -/
def abiEncode (vs : List AbiValue) : Bytes :=
  vs.length :: (vs.map abiEncodeValue).flatten

/-- Modelled from the spec: `keccak256`, an opaque collision-resistant
hash; modelled as an injective tagging function on byte strings. -/
def keccak256 (b : Bytes) : Bytes :=
  b.length :: b

/-- Decode an ABI-encoded `(uint, uint)` pair — the token wire format of
both replay-protection schemes (`defaultAbiCoder.decode(["uint","uint"], ...)`
in the test suite). -/
def abiDecodeUint2 : Bytes → Option (Nat × Nat)
  | [2, 2, a, 2, b] => some (a, b)
  | _ => none

/-! ## Replay-protection authorities

The two authority classes (`MultiNonceReplayProtection`,
`BitFlipReplayProtection`) are not among the provided sources; they are
modelled from the spec (§4.2, §4.3) as pure state machines whose
issuance operation returns the scheme-state pair together with the
advanced state. -/

/-- Modelled from the spec (§4.2): the multi-nonce authority's local
state — `queueCount` independent counters and a round-robin cursor
selecting the next queue.  Counters logically start at the values last
observed on-chain, so `nonceTracker` is an arbitrary initial map. -/
structure MultiNonceReplayProtection where
  queueCount : Nat
  indexTracker : Nat
  nonceTracker : Nat → Nat

/-- Modelled from the spec (§4.2): issue one token — read the cursor's
queue and that queue's counter, emit `(queueIndex, counter)`, increment
the counter and advance the cursor round-robin. -/
def MultiNonceReplayProtection.issue (s : MultiNonceReplayProtection) :
    (Nat × Nat) × MultiNonceReplayProtection :=
  let q := s.indexTracker
  let c := s.nonceTracker q
  ((q, c),
    { queueCount := s.queueCount
      indexTracker := (q + 1) % s.queueCount
      nonceTracker := fun i => if i = q then c + 1 else s.nonceTracker i })

/-- The scheme-state pairs of `n` sequential issuances. -/
def MultiNonceReplayProtection.issueList (s : MultiNonceReplayProtection) :
    Nat → List (Nat × Nat)
  | 0 => []
  | n + 1 =>
    let r := s.issue
    r.1 :: r.2.issueList n

/-- Embeds `getEncodedReplayProtectionToken` of the multi-nonce authority: the
pair ABI-encoded as `(uint, uint)`, per the spec's token wire format. -/
def MultiNonceReplayProtection.getEncodedReplayProtection
    (s : MultiNonceReplayProtection) : Bytes × MultiNonceReplayProtection :=
  let r := s.issue
  (abiEncode [.uint r.1.1, .uint r.1.2], r.2)

/-- The encoded tokens of `n` sequential issuances. -/
def MultiNonceReplayProtection.tokenList (s : MultiNonceReplayProtection) :
    Nat → List Bytes
  | 0 => []
  | n + 1 =>
    let r := s.getEncodedReplayProtection
    r.1 :: r.2.tokenList n

/-- Modelled from the spec (§4.3): the bit-flip authority's local state —
the current 256-bit word index and the next-free-bit cursor in it. -/
structure BitFlipReplayProtection where
  index : Nat
  bitsUsed : Nat

/-- Modelled from the spec (§4.3): issue one token — emit
`(wordIndex, bitPattern)` with exactly the cursor's bit set, advance the
cursor, and when it reaches 256 move to the next word with cursor 0. -/
def BitFlipReplayProtection.issue (s : BitFlipReplayProtection) :
    (Nat × Nat) × BitFlipReplayProtection :=
  let token := (s.index, 2 ^ s.bitsUsed)
  let next :=
    if s.bitsUsed + 1 ≥ 256 then
      BitFlipReplayProtection.mk (s.index + 1) 0
    else
      BitFlipReplayProtection.mk s.index (s.bitsUsed + 1)
  (token, next)

/-- The scheme-state pairs of `n` sequential issuances. -/
def BitFlipReplayProtection.issueList (s : BitFlipReplayProtection) :
    Nat → List (Nat × Nat)
  | 0 => []
  | n + 1 =>
    let r := s.issue
    r.1 :: r.2.issueList n

/-- Embeds `getEncodedReplayProtectionToken` of the bit-flip authority. -/
def BitFlipReplayProtection.getEncodedReplayProtection
    (s : BitFlipReplayProtection) : Bytes × BitFlipReplayProtection :=
  let r := s.issue
  (abiEncode [.uint r.1.1, .uint r.1.2], r.2)

/-- The encoded tokens of `n` sequential issuances. -/
def BitFlipReplayProtection.tokenList (s : BitFlipReplayProtection) :
    Nat → List Bytes
  | 0 => []
  | n + 1 =>
    let r := s.getEncodedReplayProtection
    r.1 :: r.2.tokenList n

/-! ### Closed forms for the two issuance sequences -/

/-- Invariant of the multi-nonce state after `k` issuances from a fresh
instance with initial counters `f0` and `Q` queues. -/
def MultiNonceInv (Q : Nat) (f0 : Nat → Nat) (k : Nat)
    (s : MultiNonceReplayProtection) : Prop :=
  s.queueCount = Q ∧ s.indexTracker = k % Q ∧
    ∀ i, i < Q → s.nonceTracker i = f0 i + k / Q + (if i < k % Q then 1 else 0)

/-! ## The Forwarder

Shallow embedding of the abstract `Forwarder` class (`signMetaTransaction`,
`encodeAndSignParams`, `encodeForDeploy`, the single and batch signing
flows).  The two suspension points — token acquisition and signing — are
modelled by an explicit environment of external results, and each flow
returns, next to its result, the trace of external events it performed,
in order. -/

/-- The error taxonomy relevant to the claims: the local
`MalformedCallDescriptor` validation error, and arbitrary external
(authority / signer) failures. -/
inductive Err where
  | malformedCallDescriptor
  | external : Nat → Err
deriving DecidableEq, Repr

/-- Embeds `MinimalTx`: the `{to, data}` pair returned by `signMetaTransaction`. -/
structure MinimalTx where
  toAddress : Nat
  data : Bytes
deriving DecidableEq, Repr

/-- The externally observable suspension points of one flow. -/
inductive Event where
  | tokenRequest
  | signRequest : Bytes → Event
deriving DecidableEq, Repr

/-- The constructor arguments of `Forwarder`: its chain id, its own
contract address, and the bound authority's verifier address. -/
structure ForwarderCfg where
  chainID : Nat
  address : Nat
  replayProtectionAuthorityAddress : Nat

/-- Results of the two awaited external calls: the authority's
`getEncodedReplayProtection` and the signer's `signMessage`. -/
structure Env where
  getEncodedReplayProtection : Except Err Bytes
  signMessage : Bytes → Except Err Bytes

/-- A call descriptor as passed by the caller (`XOR<TCallData,
TDeployCallData>`): a direct call carries `to` and optionally `data`,
`value`; a deploy call carries `data`, `salt` and optionally `value`;
batch entries may additionally carry `revertOnFail`. -/
structure RawTx where
  toAddress : Option Nat
  data : Option Bytes
  value : Option Nat
  salt : Option String
  revertOnFail : Option Bool
deriving DecidableEq, Repr

/-- Embeds `Forwarder.isDeployTx`: JavaScript truthiness of the descriptor's
`salt` field (`!!(tx as DeployCallData).salt`) — false for an absent
salt and for the empty string, true otherwise. -/
def isDeployTx (tx : RawTx) : Bool :=
  match tx.salt with
  | none => false
  | some s => s ≠ ""

/-- A lowered (direct-call-shaped) descriptor of the concrete forwarder. -/
structure ConcreteCallData where
  toAddress : Nat
  value : Nat
  data : Bytes
deriving DecidableEq, Repr

/-- A lowered batch entry of the concrete forwarder. -/
structure ConcreteBatchCallData where
  toAddress : Nat
  value : Nat
  data : Bytes
  revertOnFail : Bool
deriving DecidableEq, Repr

/-- Modelled from the spec: the fixed well-known delegate-deployer
address (`DELEGATE_DEPLOYER_ADDRESS`, whose value is not among the
provided sources). -/
def DELEGATE_DEPLOYER_ADDRESS : Nat := 3735928559

/-- Translate a salt string to the byte string that is hashed. -/
def stringToBytes (s : String) : Bytes :=
  s.data.map Char.toNat

/-- Modelled from the spec: the delegate deployer's
`deploy(initCode: bytes, value: uint256, saltHash: bytes32)` invocation
(`deployer.interface.functions.deploy.encode`), a fixed-shape selector
followed by the ABI encoding of the three arguments. -/
def deployEncode (initCode : Bytes) (value : Nat) (saltHash : Bytes) : Bytes :=
  4 :: abiEncode [.bytes initCode, .uint value, .bytes saltHash]

/-- Embeds `Forwarder.encodeForDeploy` (part_000, lines 146–165): attach the
delegate deployer and encode `deploy(initCode, value, keccak256(extraData))`. -/
def encodeForDeploy (initCode : Bytes) (extraData : String) (value : Nat) :
    MinimalTx :=
  let data := deployEncode initCode value (keccak256 (stringToBytes extraData))
  { toAddress := DELEGATE_DEPLOYER_ADDRESS, data := data }

/-- Modelled from the spec: the concrete forwarder's `toCallData` — the
deploy descriptor rewritten into a direct call against the delegate
deployer (spec §4.4 step 2). -/
def toCallData (initCode : Bytes) (extraData : String) (value : Nat) :
    ConcreteCallData :=
  let lowered := encodeForDeploy initCode extraData value
  { toAddress := lowered.toAddress, value := 0, data := lowered.data }

/-- Modelled from the spec: the concrete forwarder's `toBatchCallData` —
deploy lowering for a batch entry. -/
def toBatchCallData (initCode : Bytes) (extraData : String) (value : Nat) :
    ConcreteBatchCallData :=
  let lowered := encodeForDeploy initCode extraData value
  { toAddress := lowered.toAddress, value := 0, data := lowered.data, revertOnFail := true }

/-- Modelled from the spec and the test suite: the concrete forwarder's
`encodeCallData` (§4.4 step 3) — the ABI tuple
`(callType, to, data)` with `callType = CALL = 0`; the descriptor's
value is not part of this relay-style encoding. -/
def encodeCallData (d : ConcreteCallData) : Bytes :=
  abiEncode [.uint 0, .addr d.toAddress, .bytes d.data]

/-- One batch entry inside the batched call-data encoding. -/
def encodeBatchCallDataEntry (e : ConcreteBatchCallData) : Bytes :=
  abiEncode [.addr e.toAddress, .uint e.value, .bytes e.data,
    .uint (if e.revertOnFail then 1 else 0)]

/-- Modelled from the spec: the concrete forwarder's
`encodeBatchCallData` (§4.4 step 3) — `callType = BATCH = 2`, the entry
count, and the ordered entries' encodings concatenated. -/
def encodeBatchCallData (l : List ConcreteBatchCallData) : Bytes :=
  2 :: l.length :: (l.map encodeBatchCallDataEntry).flatten

/-- Length-prefixed byte-string field inside the final encoding. -/
def encBytes (b : Bytes) : Bytes :=
  b.length :: b

/-- Read one length-prefixed byte-string field. -/
def readBytes : Bytes → Option (Bytes × Bytes)
  | [] => none
  | n :: rest => if n ≤ rest.length then some (rest.take n, rest.drop n) else none

/-- Modelled from the spec (§4.4 step 7): the concrete forwarder's
`encodeTx` — wrap the descriptor, token, authority address and signature
into the contract's single-call entry point (selector 10). -/
def encodeTx (d : ConcreteCallData) (replayProtection : Bytes)
    (replayProtectionAuthority : Nat) (signature : Bytes) : Bytes :=
  10 :: d.toAddress :: d.value ::
    (encBytes d.data ++ (encBytes replayProtection ++
      replayProtectionAuthority :: encBytes signature))

/-- Embeds `Forwarder.decodeTx`: the inverse of `encodeTx`, recovering the full
descriptor and the token/authority/signature fields. -/
def decodeTx (l : Bytes) :
    Option (ConcreteCallData × Bytes × Nat × Bytes) :=
  match l with
  | sel :: t :: v :: rest =>
    if sel = 10 then
      match readBytes rest with
      | some (d, r1) =>
        match readBytes r1 with
        | some (rp, r2) =>
          match r2 with
          | auth :: r3 =>
            match readBytes r3 with
            | some (sig, r4) =>
              if r4 = [] then some (⟨t, v, d⟩, rp, auth, sig) else none
            | none => none
          | [] => none
        | none => none
      | none => none
    else none
  | _ => none

/-- One batch entry inside the final batch encoding. -/
def encodeBatchTxEntry (e : ConcreteBatchCallData) : Bytes :=
  e.toAddress :: e.value :: (if e.revertOnFail then 1 else 0) :: encBytes e.data

/-- Read one batch entry of the final batch encoding. -/
def readBatchTxEntry : Bytes → Option (ConcreteBatchCallData × Bytes)
  | t :: v :: rf :: rest =>
    match readBytes rest with
    | some (d, r) => some (⟨t, v, d, rf == 1⟩, r)
    | none => none
  | _ => none

/-- Read `n` batch entries in order. -/
def readBatchTxEntries : Nat → Bytes → Option (List ConcreteBatchCallData × Bytes)
  | 0, l => some ([], l)
  | n + 1, l =>
    match readBatchTxEntry l with
    | some (e, r) =>
      match readBatchTxEntries n r with
      | some (es, r2) => some (e :: es, r2)
      | none => none
    | none => none

/-- Modelled from the spec (§4.4 step 7): the concrete forwarder's
`encodeBatchTx` — wrap the ordered entry list, token, authority address
and signature into the contract's batch entry point (selector 11,
distinct from the single-call selector). -/
def encodeBatchTx (l : List ConcreteBatchCallData) (replayProtection : Bytes)
    (replayProtectionAuthority : Nat) (signature : Bytes) : Bytes :=
  11 :: l.length :: ((l.map encodeBatchTxEntry).flatten ++
    (encBytes replayProtection ++ replayProtectionAuthority :: encBytes signature))

/-- Embeds `Forwarder.decodeBatchTx`: the inverse of `encodeBatchTx`. -/
def decodeBatchTx (l : Bytes) :
    Option (List ConcreteBatchCallData × Bytes × Nat × Bytes) :=
  match l with
  | sel :: cnt :: rest =>
    if sel = 11 then
      match readBatchTxEntries cnt rest with
      | some (es, r1) =>
        match readBytes r1 with
        | some (rp, r2) =>
          match r2 with
          | auth :: r3 =>
            match readBytes r3 with
            | some (sig, r4) =>
              if r4 = [] then some (es, rp, auth, sig) else none
            | none => none
          | [] => none
        | none => none
      | none => none
    else none
  | _ => none

/-! ## The signing flows -/

/-- The canonical signing digest of §4.4 step 5 / §6: the keccak256 hash
of the ABI-encoded 5-tuple of call data, token, authority address,
forwarder address and chain id. -/
def canonicalDigest (cfg : ForwarderCfg) (callData replayProtection : Bytes)
    (replayProtectionAuthority : Nat) : Bytes :=
  keccak256 (abiEncode
    [.bytes callData, .bytes replayProtection, .addr replayProtectionAuthority,
      .addr cfg.address, .uint cfg.chainID])

/-- Embeds `Forwarder.encodeAndSignParams` (part_000, lines 167–191):
ABI-encode `(callData, replayProtection, authority, this.address,
this.chainID)` with types `["bytes","bytes","address","address","uint"]`,
hash it, and ask the signer for a signature over the hash (`arrayify` is
the identity in this byte model).  Returns the encoding and the
signature, next to the trace of signer events. -/
def encodeAndSignParams (cfg : ForwarderCfg) (env : Env)
    (callData replayProtection : Bytes) (replayProtectionAuthority : Nat) :
    Except Err (Bytes × Bytes) × List Event :=
  let encodedMetaTx := abiEncode
    [.bytes callData, .bytes replayProtection, .addr replayProtectionAuthority,
      .addr cfg.address, .uint cfg.chainID]
  match env.signMessage (keccak256 encodedMetaTx) with
  | .error e => (.error e, [.signRequest (keccak256 encodedMetaTx)])
  | .ok signature =>
    (.ok (encodedMetaTx, signature), [.signRequest (keccak256 encodedMetaTx)])

/-- Embeds `Forwarder.signAndEncodeMetaTransaction` (part_000, lines 197–220):
encode the call data, await the authority's token, sign the canonical
hash, and wrap everything with `encodeTx`; the returned destination is
this forwarder's own address. -/
def signAndEncodeMetaTransaction (cfg : ForwarderCfg) (env : Env)
    (data : ConcreteCallData) : Except Err MinimalTx × List Event :=
  let encodedCallData := encodeCallData data
  match env.getEncodedReplayProtection with
  | .error e => (.error e, [.tokenRequest])
  | .ok replayProtection =>
    let r := encodeAndSignParams cfg env encodedCallData replayProtection
      cfg.replayProtectionAuthorityAddress
    match r.1 with
    | .error e => (.error e, .tokenRequest :: r.2)
    | .ok p =>
      (.ok { toAddress := cfg.address
             data := encodeTx data replayProtection
               cfg.replayProtectionAuthorityAddress p.2 },
        .tokenRequest :: r.2)

/-- Embeds `Forwarder.signAndEncodeBatchMetaTransaction` (part_000, lines
227–252): encode the batched call data of the whole ordered list, await
one token, sign the single canonical hash, and wrap everything with
`encodeBatchTx`. -/
def signAndEncodeBatchMetaTransaction (cfg : ForwarderCfg) (env : Env)
    (dataList : List ConcreteBatchCallData) : Except Err MinimalTx × List Event :=
  let encodedCallData := encodeBatchCallData dataList
  match env.getEncodedReplayProtection with
  | .error e => (.error e, [.tokenRequest])
  | .ok replayProtection =>
    let r := encodeAndSignParams cfg env encodedCallData replayProtection
      cfg.replayProtectionAuthorityAddress
    match r.1 with
    | .error e => (.error e, .tokenRequest :: r.2)
    | .ok p =>
      (.ok { toAddress := cfg.address
             data := encodeBatchTx dataList replayProtection
               cfg.replayProtectionAuthorityAddress p.2 },
        .tokenRequest :: r.2)

/-- Classification and lowering of one single-call descriptor
(part_000, lines 137–143): a deploy descriptor (truthy salt) goes
through `toCallData`; a direct one is used as is.  Modelled from the
spec: a descriptor missing its required payload (deploy without `data`)
or destination (direct without `to`) is a local
`MalformedCallDescriptor` validation error. -/
def lowerTx (tx : RawTx) : Except Err ConcreteCallData :=
  if isDeployTx tx then
    match tx.data, tx.salt with
    | some d, some s => .ok (toCallData d s (tx.value.getD 0))
    | _, _ => .error .malformedCallDescriptor
  else
    match tx.toAddress with
    | some t => .ok ⟨t, tx.value.getD 0, tx.data.getD []⟩
    | none => .error .malformedCallDescriptor

/-- Classification and lowering of one batch entry (part_000, lines
129–134): a deploy entry goes through `toBatchCallData`; a direct one is
used as is. -/
def lowerBatchTx (tx : RawTx) : Except Err ConcreteBatchCallData :=
  if isDeployTx tx then
    match tx.data, tx.salt with
    | some d, some s => .ok (toBatchCallData d s (tx.value.getD 0))
    | _, _ => .error .malformedCallDescriptor
  else
    match tx.toAddress with
    | some t => .ok ⟨t, tx.value.getD 0, tx.data.getD [], tx.revertOnFail.getD false⟩
    | none => .error .malformedCallDescriptor

/-- Embeds `tx.map(...)` over the batch: lower each entry left to right, the
first failure propagating before anything else runs. -/
def lowerBatch : List RawTx → Except Err (List ConcreteBatchCallData)
  | [] => .ok []
  | t :: ts =>
    match lowerBatchTx t with
    | .error e => .error e
    | .ok e =>
      match lowerBatch ts with
      | .error e2 => .error e2
      | .ok es => .ok (e :: es)

/-- The argument of `signMetaTransaction`: either one descriptor or an
array of them (`Array.isArray` distinguishes the two). -/
inductive TxInput where
  | single : RawTx → TxInput
  | batch : List RawTx → TxInput

/-- Embeds `Forwarder.signMetaTransaction` (part_000, lines 124–144): an array
input takes the batch path, a lone descriptor the single path; in both
paths classification and lowering happen before any suspension. -/
def signMetaTransaction (cfg : ForwarderCfg) (env : Env) :
    TxInput → Except Err MinimalTx × List Event
  | .batch txs =>
    match lowerBatch txs with
    | .error e => (.error e, [])
    | .ok entries => signAndEncodeBatchMetaTransaction cfg env entries
  | .single tx =>
    match lowerTx tx with
    | .error e => (.error e, [])
    | .ok d => signAndEncodeMetaTransaction cfg env d

def cfgW : ForwarderCfg := ⟨1, 100, 200⟩

def envW : Env := ⟨.ok [7], fun d => .ok (5 :: d)⟩

def envTokenFailW : Env := ⟨.error (.external 42), fun d => .ok (5 :: d)⟩

def envSignFailW : Env := ⟨.ok [7], fun _ => .error (.external 9)⟩

def dW : ConcreteCallData := ⟨5, 0, [9]⟩

def rawDirW : RawTx := ⟨some 5, some [9], none, none, none⟩

def rawDepW : RawTx := ⟨none, some [7], some 3, some "ab", none⟩

def entriesW : List ConcreteBatchCallData := [⟨5, 0, [9], false⟩, toBatchCallData [7] "ab" 3]


/-! ## Theorems -/

theorem multiNonce_inv_zero (Q : Nat) (f0 : Nat → Nat) :
    MultiNonceInv Q f0 0 ⟨Q, 0, f0⟩ := by
  refine ⟨rfl, by simp, ?_⟩
  intro i _
  simp

theorem succ_mod_div_of_lt {k Q : Nat} (h : k % Q + 1 < Q) :
    (k + 1) % Q = k % Q + 1 ∧ (k + 1) / Q = k / Q := by
  have hk := Nat.div_add_mod k Q
  have h1 : k + 1 = (k % Q + 1) + Q * (k / Q) := by omega
  constructor
  · rw [h1, Nat.add_mul_mod_self_left, Nat.mod_eq_of_lt h]
  · rw [h1, Nat.add_mul_div_left _ _ (by omega : 0 < Q),
      Nat.div_eq_of_lt h, Nat.zero_add]

theorem succ_mod_div_of_eq {k Q : Nat} (hQ : 1 ≤ Q) (h : k % Q + 1 = Q) :
    (k + 1) % Q = 0 ∧ (k + 1) / Q = k / Q + 1 := by
  have hk := Nat.div_add_mod k Q
  have h1 : k + 1 = Q * (k / Q + 1) := by ring_nf; omega
  constructor
  · rw [h1, Nat.mul_mod_right]
  · rw [h1, Nat.mul_div_cancel_left _ (by omega : 0 < Q)]

theorem multiNonce_inv_step (Q : Nat) (f0 : Nat → Nat) (hQ : 1 ≤ Q)
    (k : Nat) (s : MultiNonceReplayProtection) (hs : MultiNonceInv Q f0 k s) :
    s.issue.1 = (k % Q, f0 (k % Q) + k / Q) ∧
      MultiNonceInv Q f0 (k + 1) s.issue.2 := by
  obtain ⟨hQc, hIdx, hTr⟩ := hs
  have hmodlt : k % Q < Q := Nat.mod_lt _ (by omega)
  have htok : s.nonceTracker (k % Q) = f0 (k % Q) + k / Q := by
    rw [hTr _ hmodlt]
    simp
  refine ⟨by simp [MultiNonceReplayProtection.issue, hIdx, htok], ?_, ?_, ?_⟩
  · simp [MultiNonceReplayProtection.issue, hQc]
  · simp only [MultiNonceReplayProtection.issue, hIdx, hQc]
    rcases Nat.lt_or_ge (k % Q + 1) Q with hlt | hge
    · rw [Nat.mod_eq_of_lt hlt, (succ_mod_div_of_lt hlt).1]
    · have heq : k % Q + 1 = Q := by omega
      rw [heq, Nat.mod_self, (succ_mod_div_of_eq hQ heq).1]
  · intro i hi
    simp only [MultiNonceReplayProtection.issue, hIdx, htok]
    rcases Nat.lt_or_ge (k % Q + 1) Q with hlt | hge
    · obtain ⟨hm, hd⟩ := succ_mod_div_of_lt hlt
      rw [hm, hd]
      by_cases hieq : i = k % Q
      · subst hieq
        rw [if_pos rfl, if_pos (Nat.lt_succ_self _)]
      · rw [if_neg hieq, hTr _ hi]
        by_cases hlt2 : i < k % Q
        · rw [if_pos hlt2, if_pos (by omega)]
        · rw [if_neg hlt2, if_neg (by omega)]
    · have heq : k % Q + 1 = Q := by omega
      obtain ⟨hm, hd⟩ := succ_mod_div_of_eq hQ heq
      rw [hm, hd]
      by_cases hieq : i = k % Q
      · subst hieq
        rw [if_pos rfl, if_neg (Nat.not_lt_zero _)]
        omega
      · rw [if_neg hieq, hTr _ hi, if_neg (Nat.not_lt_zero _),
          if_pos (by omega : i < k % Q)]
        omega

theorem multiNonce_issueList_closed (Q : Nat) (f0 : Nat → Nat) (hQ : 1 ≤ Q) :
    ∀ n k s, MultiNonceInv Q f0 k s →
      s.issueList n = (List.range' k n).map (fun j => (j % Q, f0 (j % Q) + j / Q))
  | 0, _, _, _ => by simp [MultiNonceReplayProtection.issueList]
  | n + 1, k, s, hs => by
    obtain ⟨htok, hinv⟩ := multiNonce_inv_step Q f0 hQ k s hs
    rw [MultiNonceReplayProtection.issueList, List.range'_succ, List.map_cons,
      htok, multiNonce_issueList_closed Q f0 hQ n (k + 1) _ hinv]

/-- Invariant-free closed form for bit-flip: state after `k` issuances. -/
theorem bitFlip_issueList_closed :
    ∀ n w0 k, BitFlipReplayProtection.issueList ⟨w0 + k / 256, k % 256⟩ n =
      (List.range' k n).map (fun j => (w0 + j / 256, 2 ^ (j % 256)))
  | 0, _, _ => by simp [BitFlipReplayProtection.issueList]
  | n + 1, w0, k => by
    have hcur : k % 256 < 256 := Nat.mod_lt _ (by omega)
    have htok : (BitFlipReplayProtection.issue ⟨w0 + k / 256, k % 256⟩).1 =
        (w0 + k / 256, 2 ^ (k % 256)) := rfl
    have hstep : (BitFlipReplayProtection.issue ⟨w0 + k / 256, k % 256⟩).2 =
        ⟨w0 + (k + 1) / 256, (k + 1) % 256⟩ := by
      by_cases hwrap : k % 256 + 1 ≥ 256
      · have h1 : (k + 1) / 256 = k / 256 + 1 := by omega
        have h2 : (k + 1) % 256 = 0 := by omega
        simp only [BitFlipReplayProtection.issue, if_pos hwrap, h1, h2]
        rw [Nat.add_assoc]
      · have h1 : (k + 1) / 256 = k / 256 := by omega
        have h2 : (k + 1) % 256 = k % 256 + 1 := by omega
        simp only [BitFlipReplayProtection.issue, if_neg hwrap, h1, h2]
    rw [BitFlipReplayProtection.issueList, List.range'_succ, List.map_cons,
      htok, hstep, bitFlip_issueList_closed n w0 (k + 1)]

theorem tokenList_eq_map_multiNonce (s : MultiNonceReplayProtection) :
    ∀ n, s.tokenList n =
      (s.issueList n).map (fun p => abiEncode [.uint p.1, .uint p.2])
  | 0 => rfl
  | n + 1 => by
    rw [MultiNonceReplayProtection.tokenList, MultiNonceReplayProtection.issueList,
      List.map_cons, tokenList_eq_map_multiNonce _ n]
    rfl

theorem tokenList_eq_map_bitFlip (s : BitFlipReplayProtection) :
    ∀ n, s.tokenList n =
      (s.issueList n).map (fun p => abiEncode [.uint p.1, .uint p.2])
  | 0 => rfl
  | n + 1 => by
    rw [BitFlipReplayProtection.tokenList, BitFlipReplayProtection.issueList,
      List.map_cons, tokenList_eq_map_bitFlip _ n]
    rfl

/-- Decoding inverts the token encoding: the wire format faithfully
carries the scheme-state pair. -/
theorem abiDecodeUint2_encode (a b : Nat) :
    abiDecodeUint2 (abiEncode [.uint a, .uint b]) = some (a, b) := rfl

theorem range'_nodup (k n : Nat) : (List.range' k n).Nodup := by
  rw [List.range'_eq_map_range]
  exact (List.nodup_range n).map (fun _ _ h => by omega)

/-- C1: For every replay-protection authority instance and every N,
the N tokens returned by N sequential calls to the authority's
token-issuance operation on that one instance are pairwise distinct: no
two of them decode to the same scheme-state pair (queueIndex/counter for
the queue scheme, wordIndex/bitPattern for the bitmap scheme). -/
theorem c1_sequential_tokens_pairwise_distinct
    (Q n w0 : Nat) (f0 : Nat → Nat) (hQ : 1 ≤ Q) :
    ((MultiNonceReplayProtection.tokenList ⟨Q, 0, f0⟩ n).map abiDecodeUint2).Nodup ∧
      ((BitFlipReplayProtection.tokenList ⟨w0, 0⟩ n).map abiDecodeUint2).Nodup := by
  constructor
  · rw [tokenList_eq_map_multiNonce, List.map_map,
      multiNonce_issueList_closed Q f0 hQ n 0 _ (multiNonce_inv_zero Q f0),
      List.map_map]
    refine (range'_nodup 0 n).map ?_
    intro a b hab
    simp only [Function.comp, abiDecodeUint2_encode, Option.some_inj,
      Prod.mk.injEq] at hab
    obtain ⟨h1, h2⟩ := hab
    rw [h1] at h2
    have hdiv : a / Q = b / Q := Nat.add_left_cancel h2
    calc a = Q * (a / Q) + a % Q := (Nat.div_add_mod a Q).symm
      _ = Q * (b / Q) + b % Q := by rw [hdiv, h1]
      _ = b := Nat.div_add_mod b Q
  · have hzero : (⟨w0, 0⟩ : BitFlipReplayProtection) = ⟨w0 + 0 / 256, 0 % 256⟩ := by
      norm_num
    rw [tokenList_eq_map_bitFlip, hzero,
      bitFlip_issueList_closed n w0 0, List.map_map, List.map_map]
    refine (range'_nodup 0 n).map ?_
    intro a b hab
    simp only [Function.comp, abiDecodeUint2_encode, Option.some_inj,
      Prod.mk.injEq] at hab
    obtain ⟨h1, h2⟩ := hab
    have hmod : a % 256 = b % 256 :=
      Nat.pow_right_injective (by norm_num) h2
    omega

theorem c1_sequential_tokens_pairwise_distinct_witness :
    1 ≤ 2 ∧
      (((MultiNonceReplayProtection.tokenList ⟨2, 0, fun _ => 0⟩ 5).map
          abiDecodeUint2).Nodup ∧
        ((BitFlipReplayProtection.tokenList ⟨3, 0⟩ 5).map abiDecodeUint2).Nodup) :=
  ⟨by decide, c1_sequential_tokens_pairwise_distinct 2 5 3 (fun _ => 0) (by decide)⟩


/-! ## Round-trip of the final encodings (C3) -/

theorem readBytes_encBytes (b ext : Bytes) :
    readBytes (encBytes b ++ ext) = some (b, ext) := by
  simp only [encBytes, List.cons_append, readBytes, List.length_append]
  rw [if_pos (by omega), List.take_left, List.drop_left]

theorem readBytes_encBytes_nil (b : Bytes) :
    readBytes (encBytes b) = some (b, []) := by
  have h := readBytes_encBytes b []
  rwa [List.append_nil] at h

theorem readBatchTxEntry_encode (e : ConcreteBatchCallData) (ext : Bytes) :
    readBatchTxEntry (encodeBatchTxEntry e ++ ext) = some (e, ext) := by
  cases e with
  | mk t v d rf =>
    simp only [encodeBatchTxEntry, List.cons_append, readBatchTxEntry,
      readBytes_encBytes]
    cases rf <;> simp

theorem readBatchTxEntries_encode (l : List ConcreteBatchCallData) (ext : Bytes) :
    readBatchTxEntries l.length ((l.map encodeBatchTxEntry).flatten ++ ext) =
      some (l, ext) := by
  induction l generalizing ext with
  | nil => simp [readBatchTxEntries]
  | cons e es ih =>
    simp only [List.map_cons, List.flatten_cons, List.length_cons,
      List.append_assoc, readBatchTxEntries, readBatchTxEntry_encode, ih]

/-- C3: For every call-data/token/authority/signature tuple x,
decodeTx applied to the output of the single-call final encoding
(encodeTx) returns x exactly, and decodeBatchTx applied to the output of
the batch final encoding (encodeBatchTx) returns x exactly, for batches
of mixed direct/deploy descriptors of length 0, 1, and greater than 1
(the universally quantified entry list covers all lengths and mixes). -/
theorem c3_decode_inverts_encode (d : ConcreteCallData)
    (l : List ConcreteBatchCallData) (rp : Bytes) (auth : Nat) (sig : Bytes) :
    decodeTx (encodeTx d rp auth sig) = some (d, rp, auth, sig) ∧
      decodeBatchTx (encodeBatchTx l rp auth sig) = some (l, rp, auth, sig) := by
  constructor
  · simp [encodeTx, decodeTx, readBytes_encBytes, readBytes_encBytes_nil]
  · simp [encodeBatchTx, decodeBatchTx, readBatchTxEntries_encode,
      readBytes_encBytes, readBytes_encBytes_nil]

/-- C2: For every call data, replay-protection token, and authority
address, encodeAndSignParams signs exactly the keccak256 hash of the ABI
encoding of the 5-tuple (callData, token, authorityAddress,
forwarderAddress, chainId), in that order, where forwarderAddress is
this forwarder instance's own configured address and chainId is its
configured chain id: its only signer request carries that digest, and
its result is the signer's verdict on that digest. -/
theorem c2_signs_exactly_canonical_hash (cfg : ForwarderCfg) (env : Env)
    (callData replayProtection : Bytes) (authorityAddress : Nat) :
    (encodeAndSignParams cfg env callData replayProtection authorityAddress).2 =
      [.signRequest (keccak256 (abiEncode
        [.bytes callData, .bytes replayProtection, .addr authorityAddress,
          .addr cfg.address, .uint cfg.chainID]))] ∧
    (encodeAndSignParams cfg env callData replayProtection authorityAddress).1 =
      (env.signMessage (keccak256 (abiEncode
        [.bytes callData, .bytes replayProtection, .addr authorityAddress,
          .addr cfg.address, .uint cfg.chainID]))).map
        (fun s => (abiEncode
          [.bytes callData, .bytes replayProtection, .addr authorityAddress,
            .addr cfg.address, .uint cfg.chainID], s)) := by
  cases h : env.signMessage (keccak256 (abiEncode
    [.bytes callData, .bytes replayProtection, .addr authorityAddress,
      .addr cfg.address, .uint cfg.chainID])) with
  | error e => exact ⟨by simp [encodeAndSignParams, h], by simp [encodeAndSignParams, h, Except.map]⟩
  | ok s => exact ⟨by simp [encodeAndSignParams, h], by simp [encodeAndSignParams, h, Except.map]⟩

/-- C4: For every call descriptor passed to signMetaTransaction
(alone or as an element of a batch), the descriptor is routed through
deploy-lowering if and only if its salt field is present and non-empty;
a descriptor with an absent or empty-string salt is always treated as a
direct call.  `isDeployTx` is the sole discriminator, and both the
single-call and batch lowerings branch on it. -/
theorem c4_nonempty_salt_iff_deploy_lowering (tx : RawTx) :
    (isDeployTx tx = true ↔ ∃ s, tx.salt = some s ∧ s ≠ "") ∧
    lowerTx tx = (if isDeployTx tx then
      match tx.data, tx.salt with
      | some d, some s => .ok (toCallData d s (tx.value.getD 0))
      | _, _ => .error .malformedCallDescriptor
    else
      match tx.toAddress with
      | some t => .ok ⟨t, tx.value.getD 0, tx.data.getD []⟩
      | none => .error .malformedCallDescriptor) ∧
    lowerBatchTx tx = (if isDeployTx tx then
      match tx.data, tx.salt with
      | some d, some s => .ok (toBatchCallData d s (tx.value.getD 0))
      | _, _ => .error .malformedCallDescriptor
    else
      match tx.toAddress with
      | some t => .ok ⟨t, tx.value.getD 0, tx.data.getD [], tx.revertOnFail.getD false⟩
      | none => .error .malformedCallDescriptor) := by
  refine ⟨?_, rfl, rfl⟩
  unfold isDeployTx
  cases h : tx.salt with
  | none => simp
  | some s => simp

/-- C6: For every deploy descriptor {payload, value, salt}, lowering
produces a direct call whose destination is the fixed delegate-deployer
address and whose payload is the ABI-shaped invocation
deploy(initCode, value, saltHash) where initCode is the descriptor's
payload and saltHash is the keccak256 hash of the salt (the salt itself
is never embedded unhashed). -/
theorem c6_deploy_lowering_shape (initCode : Bytes) (salt : String)
    (value : Nat) (tx : RawTx) :
    encodeForDeploy initCode salt value =
      ⟨DELEGATE_DEPLOYER_ADDRESS,
        deployEncode initCode value (keccak256 (stringToBytes salt))⟩ ∧
    (isDeployTx tx = true → ∀ d s, tx.data = some d → tx.salt = some s →
      lowerTx tx = .ok ⟨DELEGATE_DEPLOYER_ADDRESS, 0,
        deployEncode d (tx.value.getD 0) (keccak256 (stringToBytes s))⟩) := by
  refine ⟨rfl, ?_⟩
  intro h d s hd hs
  simp [lowerTx, h, hd, hs, toCallData, encodeForDeploy]

theorem c6_deploy_lowering_shape_witness :
    encodeForDeploy [7] "ab" 3 =
      ⟨DELEGATE_DEPLOYER_ADDRESS,
        deployEncode [7] 3 (keccak256 (stringToBytes "ab"))⟩ ∧
    lowerTx ⟨none, some [7], some 3, some "ab", none⟩ =
      .ok ⟨DELEGATE_DEPLOYER_ADDRESS, 0,
        deployEncode [7] 3 (keccak256 (stringToBytes "ab"))⟩ :=
  ⟨(c6_deploy_lowering_shape [7] "ab" 3 ⟨none, some [7], some 3, some "ab", none⟩).1,
    (c6_deploy_lowering_shape [7] "ab" 3
        ⟨none, some [7], some 3, some "ab", none⟩).2 (by decide) [7] "ab" rfl rfl⟩

/-- Every lowering failure of a batch entry is the local
MalformedCallDescriptor error. -/
theorem lowerBatchTx_error_malformed (tx : RawTx) (e : Err)
    (h : lowerBatchTx tx = .error e) : e = .malformedCallDescriptor := by
  unfold lowerBatchTx at h
  split at h
  · split at h <;> simp_all
  · split at h <;> simp_all

theorem lowerBatch_error_of_mem (txs : List RawTx) (tx : RawTx)
    (hmem : tx ∈ txs)
    (h : lowerBatchTx tx = .error .malformedCallDescriptor) :
    lowerBatch txs = .error .malformedCallDescriptor := by
  induction txs with
  | nil => cases hmem
  | cons t ts ih =>
    rcases List.mem_cons.mp hmem with heq | htail
    · subst heq
      simp [lowerBatch, h]
    · cases he : lowerBatchTx t with
      | error e2 =>
        have := lowerBatchTx_error_malformed t e2 he
        subst this
        simp [lowerBatch, he]
      | ok e2 => simp [lowerBatch, he, ih htail]

theorem lowerTx_malformed_of_deploy_no_payload (tx : RawTx)
    (h1 : isDeployTx tx = true) (h2 : tx.data = none) :
    lowerTx tx = .error .malformedCallDescriptor ∧
      lowerBatchTx tx = .error .malformedCallDescriptor := by
  cases hs : tx.salt <;> constructor <;> simp [lowerTx, lowerBatchTx, h1, h2, hs]

/-- C7: For every malformed call descriptor (for example a deploy
descriptor whose payload is missing), signMetaTransaction fails with a
local validation error before any suspension point: the authority is
never asked for a token, the signer is never invoked (the event trace is
empty), and no state is mutated. -/
theorem c7_malformed_fails_before_suspension (cfg : ForwarderCfg) (env : Env)
    (tx : RawTx) (txs : List RawTx)
    (h1 : isDeployTx tx = true) (h2 : tx.data = none) :
    signMetaTransaction cfg env (.single tx) =
      (.error .malformedCallDescriptor, []) ∧
    (tx ∈ txs → signMetaTransaction cfg env (.batch txs) =
      (.error .malformedCallDescriptor, [])) := by
  obtain ⟨hl, hlb⟩ := lowerTx_malformed_of_deploy_no_payload tx h1 h2
  constructor
  · simp [signMetaTransaction, hl]
  · intro hmem
    simp [signMetaTransaction, lowerBatch_error_of_mem txs tx hmem hlb]

theorem c7_malformed_fails_before_suspension_witness :
    signMetaTransaction ⟨1, 100, 200⟩ ⟨.ok [7], fun d => .ok (5 :: d)⟩
        (.single ⟨none, none, none, some "x", none⟩) =
      (.error .malformedCallDescriptor, []) ∧
    signMetaTransaction ⟨1, 100, 200⟩ ⟨.ok [7], fun d => .ok (5 :: d)⟩
        (.batch [⟨some 5, some [9], none, none, none⟩,
          ⟨none, none, none, some "x", none⟩]) =
      (.error .malformedCallDescriptor, []) := by
  have h := c7_malformed_fails_before_suspension ⟨1, 100, 200⟩
    ⟨.ok [7], fun d => .ok (5 :: d)⟩ ⟨none, none, none, some "x", none⟩
    [⟨some 5, some [9], none, none, none⟩, ⟨none, none, none, some "x", none⟩]
    (by decide) rfl
  exact ⟨h.1, h.2 (by simp)⟩

/-- C8: For both single and batch signing, any failure raised by the
authority's token acquisition or by the signer propagates to the caller
unmodified (no retry, no remapping, no silent recovery); in particular,
when token acquisition fails the signer is never invoked (the trace ends
at the token request) and no encoded transaction is produced. -/
theorem c8_external_failures_propagate_unmodified (cfg : ForwarderCfg)
    (env : Env) (d : ConcreteCallData) (l : List ConcreteBatchCallData)
    (e : Err) :
    (env.getEncodedReplayProtection = .error e →
      signAndEncodeMetaTransaction cfg env d = (.error e, [.tokenRequest]) ∧
      signAndEncodeBatchMetaTransaction cfg env l = (.error e, [.tokenRequest])) ∧
    (∀ rp, env.getEncodedReplayProtection = .ok rp →
      env.signMessage (canonicalDigest cfg (encodeCallData d) rp
        cfg.replayProtectionAuthorityAddress) = .error e →
      signAndEncodeMetaTransaction cfg env d =
        (.error e, [.tokenRequest, .signRequest (canonicalDigest cfg
          (encodeCallData d) rp cfg.replayProtectionAuthorityAddress)])) ∧
    (∀ rp, env.getEncodedReplayProtection = .ok rp →
      env.signMessage (canonicalDigest cfg (encodeBatchCallData l) rp
        cfg.replayProtectionAuthorityAddress) = .error e →
      signAndEncodeBatchMetaTransaction cfg env l =
        (.error e, [.tokenRequest, .signRequest (canonicalDigest cfg
          (encodeBatchCallData l) rp cfg.replayProtectionAuthorityAddress)])) := by
  refine ⟨fun h => ⟨?_, ?_⟩, fun rp h hs => ?_, fun rp h hs => ?_⟩
  · simp [signAndEncodeMetaTransaction, h]
  · simp [signAndEncodeBatchMetaTransaction, h]
  · simp only [canonicalDigest] at hs
    simp [signAndEncodeMetaTransaction, h, encodeAndSignParams, hs, canonicalDigest]
  · simp only [canonicalDigest] at hs
    simp [signAndEncodeBatchMetaTransaction, h, encodeAndSignParams, hs, canonicalDigest]


theorem c8_external_failures_propagate_unmodified_witness :
    signAndEncodeMetaTransaction cfgW envTokenFailW dW =
      (.error (.external 42), [.tokenRequest]) ∧
    signAndEncodeMetaTransaction cfgW envSignFailW dW =
      (.error (.external 9), [.tokenRequest, .signRequest (canonicalDigest cfgW
        (encodeCallData dW) [7] cfgW.replayProtectionAuthorityAddress)]) :=
  ⟨((c8_external_failures_propagate_unmodified cfgW envTokenFailW dW []
      (.external 42)).1 rfl).1,
    (c8_external_failures_propagate_unmodified cfgW envSignFailW dW []
      (.external 9)).2.1 [7] rfl rfl⟩

/-- C5: For every batch input to signMetaTransaction (including a mix
of deploy and direct descriptors), exactly one token is requested from
the authority and exactly one signature is produced, and that signature
is over the single canonical hash built from the batched call-data
encoding of the whole ordered list, not over per-entry hashes: the event
trace is exactly one token request followed by exactly one signer
request carrying the batch digest. -/
theorem c5_batch_one_token_one_signature (cfg : ForwarderCfg) (env : Env)
    (txs : List RawTx) (entries : List ConcreteBatchCallData) (rp sig : Bytes)
    (hlow : lowerBatch txs = .ok entries)
    (htok : env.getEncodedReplayProtection = .ok rp)
    (hsig : env.signMessage (canonicalDigest cfg (encodeBatchCallData entries)
      rp cfg.replayProtectionAuthorityAddress) = .ok sig) :
    signMetaTransaction cfg env (.batch txs) =
      (.ok ⟨cfg.address, encodeBatchTx entries rp
          cfg.replayProtectionAuthorityAddress sig⟩,
        [.tokenRequest, .signRequest (canonicalDigest cfg
          (encodeBatchCallData entries) rp cfg.replayProtectionAuthorityAddress)]) := by
  simp only [canonicalDigest] at hsig
  simp [signMetaTransaction, hlow, signAndEncodeBatchMetaTransaction, htok,
    encodeAndSignParams, hsig, canonicalDigest]

theorem c5_batch_one_token_one_signature_witness :
    signMetaTransaction cfgW envW (.batch [rawDirW, rawDepW]) =
      (.ok ⟨cfgW.address, encodeBatchTx entriesW [7]
          cfgW.replayProtectionAuthorityAddress
          (5 :: canonicalDigest cfgW (encodeBatchCallData entriesW) [7]
            cfgW.replayProtectionAuthorityAddress)⟩,
        [.tokenRequest, .signRequest (canonicalDigest cfgW
          (encodeBatchCallData entriesW) [7]
          cfgW.replayProtectionAuthorityAddress)]) :=
  c5_batch_one_token_one_signature cfgW envW [rawDirW, rawDepW] entriesW [7]
    (5 :: canonicalDigest cfgW (encodeBatchCallData entriesW) [7]
      cfgW.replayProtectionAuthorityAddress)
    (by rfl) rfl rfl

theorem signAndEncodeMetaTransaction_eval (cfg : ForwarderCfg) (env : Env)
    (d : ConcreteCallData) :
    signAndEncodeMetaTransaction cfg env d =
      match env.getEncodedReplayProtection with
      | .error e => (.error e, [.tokenRequest])
      | .ok rp =>
        match env.signMessage (canonicalDigest cfg (encodeCallData d) rp
          cfg.replayProtectionAuthorityAddress) with
        | .error e => (.error e, [.tokenRequest, .signRequest (canonicalDigest
            cfg (encodeCallData d) rp cfg.replayProtectionAuthorityAddress)])
        | .ok sig => (.ok ⟨cfg.address, encodeTx d rp
              cfg.replayProtectionAuthorityAddress sig⟩,
            [.tokenRequest, .signRequest (canonicalDigest cfg
              (encodeCallData d) rp cfg.replayProtectionAuthorityAddress)]) := by
  cases htok : env.getEncodedReplayProtection with
  | error e => simp [signAndEncodeMetaTransaction, htok]
  | ok rp =>
    cases hs : env.signMessage (canonicalDigest cfg (encodeCallData d) rp
      cfg.replayProtectionAuthorityAddress) with
    | error e =>
      simp only [canonicalDigest] at hs
      simp [signAndEncodeMetaTransaction, encodeAndSignParams, htok, hs,
        canonicalDigest]
    | ok sig =>
      simp only [canonicalDigest] at hs
      simp [signAndEncodeMetaTransaction, encodeAndSignParams, htok, hs,
        canonicalDigest]

theorem signAndEncodeBatchMetaTransaction_eval (cfg : ForwarderCfg) (env : Env)
    (l : List ConcreteBatchCallData) :
    signAndEncodeBatchMetaTransaction cfg env l =
      match env.getEncodedReplayProtection with
      | .error e => (.error e, [.tokenRequest])
      | .ok rp =>
        match env.signMessage (canonicalDigest cfg (encodeBatchCallData l) rp
          cfg.replayProtectionAuthorityAddress) with
        | .error e => (.error e, [.tokenRequest, .signRequest (canonicalDigest
            cfg (encodeBatchCallData l) rp cfg.replayProtectionAuthorityAddress)])
        | .ok sig => (.ok ⟨cfg.address, encodeBatchTx l rp
              cfg.replayProtectionAuthorityAddress sig⟩,
            [.tokenRequest, .signRequest (canonicalDigest cfg
              (encodeBatchCallData l) rp cfg.replayProtectionAuthorityAddress)]) := by
  cases htok : env.getEncodedReplayProtection with
  | error e => simp [signAndEncodeBatchMetaTransaction, htok]
  | ok rp =>
    cases hs : env.signMessage (canonicalDigest cfg (encodeBatchCallData l) rp
      cfg.replayProtectionAuthorityAddress) with
    | error e =>
      simp only [canonicalDigest] at hs
      simp [signAndEncodeBatchMetaTransaction, encodeAndSignParams, htok, hs,
        canonicalDigest]
    | ok sig =>
      simp only [canonicalDigest] at hs
      simp [signAndEncodeBatchMetaTransaction, encodeAndSignParams, htok, hs,
        canonicalDigest]

theorem signAndEncodeMetaTransaction_ok_shape (cfg : ForwarderCfg) (env : Env)
    (d : ConcreteCallData) (m : MinimalTx)
    (h : (signAndEncodeMetaTransaction cfg env d).1 = Except.ok m) :
    ∃ rp sig, m = ⟨cfg.address,
      encodeTx d rp cfg.replayProtectionAuthorityAddress sig⟩ := by
  rw [signAndEncodeMetaTransaction_eval] at h
  split at h
  · simp at h
  · split at h
    · simp at h
    · simp at h
      exact ⟨_, _, h.symm⟩

theorem signAndEncodeBatchMetaTransaction_ok_shape (cfg : ForwarderCfg)
    (env : Env) (l : List ConcreteBatchCallData) (m : MinimalTx)
    (h : (signAndEncodeBatchMetaTransaction cfg env l).1 = Except.ok m) :
    ∃ rp sig, m = ⟨cfg.address,
      encodeBatchTx l rp cfg.replayProtectionAuthorityAddress sig⟩ := by
  rw [signAndEncodeBatchMetaTransaction_eval] at h
  split at h
  · simp at h
  · split at h
    · simp at h
    · simp at h
      exact ⟨_, _, h.symm⟩

/-- C9: For every input to signMetaTransaction, single or batch, the
destination field (`to`, here `toAddress`) of the returned MinimalTx
always equals the forwarder instance's own configured address — never
the target contract's address and never the delegate-deployer's
address. -/
theorem c9_destination_is_forwarder_address (cfg : ForwarderCfg) (env : Env)
    (inp : TxInput) (m : MinimalTx)
    (h : (signMetaTransaction cfg env inp).1 = Except.ok m) :
    m.toAddress = cfg.address := by
  cases inp with
  | single tx =>
    simp only [signMetaTransaction] at h
    split at h
    · simp at h
    · obtain ⟨rp, sig, rfl⟩ := signAndEncodeMetaTransaction_ok_shape cfg env _ m h
      rfl
  | batch txs =>
    simp only [signMetaTransaction] at h
    split at h
    · simp at h
    · obtain ⟨rp, sig, rfl⟩ :=
        signAndEncodeBatchMetaTransaction_ok_shape cfg env _ m h
      rfl

theorem c9_destination_is_forwarder_address_witness :
    ((signMetaTransaction cfgW envW (.single rawDirW)).1 =
      Except.ok ⟨cfgW.address, encodeTx ⟨5, 0, [9]⟩ [7]
        cfgW.replayProtectionAuthorityAddress
        (5 :: canonicalDigest cfgW (encodeCallData ⟨5, 0, [9]⟩) [7]
          cfgW.replayProtectionAuthorityAddress)⟩) ∧
    (⟨cfgW.address, encodeTx ⟨5, 0, [9]⟩ [7]
        cfgW.replayProtectionAuthorityAddress
        (5 :: canonicalDigest cfgW (encodeCallData ⟨5, 0, [9]⟩) [7]
          cfgW.replayProtectionAuthorityAddress)⟩ : MinimalTx).toAddress =
      cfgW.address :=
  ⟨rfl, c9_destination_is_forwarder_address cfgW envW (.single rawDirW) _ rfl⟩

/-- C10: signMetaTransaction selects the batch path if and only if
its input is an array: a one-element array is encoded with the batch
call-data encoding and batch final encoding (yielding different bytes
than the same descriptor passed alone), and an empty array still
acquires one token and returns a signed batch envelope rather than
failing. -/
theorem c10_array_selects_batch_path (cfg : ForwarderCfg) (env : Env) :
    (∀ rp sig, env.getEncodedReplayProtection = .ok rp →
      env.signMessage (canonicalDigest cfg (encodeBatchCallData []) rp
        cfg.replayProtectionAuthorityAddress) = .ok sig →
      signMetaTransaction cfg env (.batch []) =
        (.ok ⟨cfg.address, encodeBatchTx [] rp
            cfg.replayProtectionAuthorityAddress sig⟩,
          [.tokenRequest, .signRequest (canonicalDigest cfg
            (encodeBatchCallData []) rp cfg.replayProtectionAuthorityAddress)])) ∧
    (∀ tx m mSingle,
      (signMetaTransaction cfg env (.batch [tx])).1 = Except.ok m →
      (signMetaTransaction cfg env (.single tx)).1 = Except.ok mSingle →
      m.data ≠ mSingle.data) := by
  constructor
  · intro rp sig htok hsig
    simp [signMetaTransaction, lowerBatch,
      signAndEncodeBatchMetaTransaction_eval, htok, hsig]
  · intro tx m mSingle hb hs
    simp only [signMetaTransaction] at hb hs
    split at hb
    · simp at hb
    · split at hs
      · simp at hs
      · obtain ⟨rp, sig, rfl⟩ :=
          signAndEncodeBatchMetaTransaction_ok_shape cfg env _ m hb
        obtain ⟨rp2, sig2, rfl⟩ :=
          signAndEncodeMetaTransaction_ok_shape cfg env _ mSingle hs
        simp [encodeBatchTx, encodeTx]

theorem c10_array_selects_batch_path_witness :
    signMetaTransaction cfgW envW (.batch []) =
      (.ok ⟨cfgW.address, encodeBatchTx [] [7]
          cfgW.replayProtectionAuthorityAddress
          (5 :: canonicalDigest cfgW (encodeBatchCallData []) [7]
            cfgW.replayProtectionAuthorityAddress)⟩,
        [.tokenRequest, .signRequest (canonicalDigest cfgW
          (encodeBatchCallData []) [7] cfgW.replayProtectionAuthorityAddress)]) ∧
    (⟨cfgW.address, encodeBatchTx [⟨5, 0, [9], false⟩] [7]
        cfgW.replayProtectionAuthorityAddress
        (5 :: canonicalDigest cfgW (encodeBatchCallData [⟨5, 0, [9], false⟩])
          [7] cfgW.replayProtectionAuthorityAddress)⟩ : MinimalTx).data ≠
      (⟨cfgW.address, encodeTx ⟨5, 0, [9]⟩ [7]
        cfgW.replayProtectionAuthorityAddress
        (5 :: canonicalDigest cfgW (encodeCallData ⟨5, 0, [9]⟩) [7]
          cfgW.replayProtectionAuthorityAddress)⟩ : MinimalTx).data :=
  ⟨(c10_array_selects_batch_path cfgW envW).1 [7]
      (5 :: canonicalDigest cfgW (encodeBatchCallData []) [7]
        cfgW.replayProtectionAuthorityAddress) rfl rfl,
    (c10_array_selects_batch_path cfgW envW).2 rawDirW _ _ rfl rfl⟩
